import Mathlib

/-!
Verification development for the umac Macintosh 128K/Plus emulator core
(src/main.c, src/rom.c).  The C sources are shallowly embedded: byte
buffers become functions from addresses to bytes, the mutable globals of
main.c become fields of explicit state records, and the entry points
become state-transforming functions.  Machine integers are modelled as
Nat, with Int for C int expressions that can go negative; stores into
uint8_t buffers reduce the stored value mod 256, and 32-bit int values
are reduced mod 2 ^ 32 before byte extraction (two-complement wrap).
-/

namespace Umac

/-- A RAM or ROM image: one byte per address.  The C buffers are arrays of
uint8_t, so stores always reduce the stored value mod 256. -/
def Image : Type := Nat → Nat

/-- A list of byte writes (offset, value) applied left to right to an
image, each store truncated to a byte, exactly as a C store into a
uint8_t array truncates. -/
def applyWrites (ws : List (Nat × Nat)) (rom : Image) : Image :=
  ws.foldl (fun r p => fun i => if i = p.1 then p.2 % 256 else r i) rom

/-- The value of the last write in the list that targets address i. -/
def writeLookup (ws : List (Nat × Nat)) (i : Nat) : Option Nat :=
  ws.foldl (fun acc p => if p.1 = i then some p.2 else acc) none

/-- Bytes of a C int laid down sequentially from an offset, used for the
ROM_WR8/16/32 macros of rom.c and for memcpy. -/
def wrBytes (off : Nat) (bs : List Nat) : List (Nat × Nat) :=
  (List.range bs.length).map fun i => (off + i, bs.getD i 0)

/-- Two-complement 32-bit image of a C int value (the modulus operation
is the Euclidean one, giving the nonnegative residue). -/
def u32 (v : Int) : Nat := (v % 4294967296).toNat

/-- ROM_WR8 of rom.c: rom_base[off] = data & 0xff. -/
def wr8 (off : Nat) (v : Int) : List (Nat × Nat) :=
  wrBytes off [u32 v % 256]

/-- ROM_WR16 of rom.c: big-endian 16-bit store, byte at off first. -/
def wr16 (off : Nat) (v : Int) : List (Nat × Nat) :=
  wrBytes off [(u32 v >>> 8) % 256, u32 v % 256]

/-- ROM_WR32 of rom.c: big-endian 32-bit store. -/
def wr32 (off : Nat) (v : Int) : List (Nat × Nat) :=
  wrBytes off [(u32 v >>> 24) % 256, (u32 v >>> 16) % 256, (u32 v >>> 8) % 256, u32 v % 256]

/-- rom_get_version of rom.c: the first four bytes of the ROM read as one
big-endian 32-bit word (the C code does a 32-bit load plus bswap on a
little-endian host). -/
def rom_get_version (rom : Image) : Nat :=
  ((rom 0 % 256) <<< 24) ||| ((rom 1 % 256) <<< 16) ||| ((rom 2 % 256) <<< 8) ||| (rom 3 % 256)

def ROM_PLUSv3_VERSION : Nat := 0x4d1f8172

def ROM_PLUSv3_SONYDRV : Nat := 0x17d30

def M68K_INST_NOP : Int := 0x4e71

/-- The memtop hack of rom_patch_plusv3 for 128K < ram_size < 512K: four
NOPs over 0x376..0x37d (the source loop, unrolled), then the movea.l
immediate, the branch at 0x132 and the BootBeep sound buffer pointer. -/
def memtopWrites (ram_size : Nat) : List (Nat × Nat) :=
  wr16 0x376 M68K_INST_NOP ++ wr16 0x378 M68K_INST_NOP ++
  wr16 0x37a M68K_INST_NOP ++ wr16 0x37c M68K_INST_NOP ++
  wr16 0x376 0x2a7c ++
  wr16 0x378 (ram_size >>> 16) ++
  wr16 0x37a ((ram_size &&& 0xffff : Nat) : Int) ++
  wr16 0x132 0x6000 ++
  wr32 0x292 ((ram_size : Int) - 768)

/-- screen_size of rom_patch_plusv3: disp_width*disp_height/8 in C int
arithmetic (parameters are nonnegative, so Nat division matches). -/
def screen_size (w h : Nat) : Nat := w * h / 8

def screen_distance_from_top (w h : Nat) : Nat := screen_size w h + 0x380

/-- screen_base of rom_patch_plusv3; Int because the C int expression is
0x400000 minus the distance from top. -/
def screen_base (w h : Nat) : Int := 0x400000 - (screen_distance_from_top w h : Int)

/-- The SBCOORD macro: screen_base + (disp_width/8)*y + x/8; x can be
negative, and C division truncates toward zero, hence Int.tdiv. -/
def sbcoord (w h : Nat) (x y : Int) : Int :=
  screen_base w h + (w / 8 : Nat) * y + Int.tdiv x 8

/-- Writes at the head of the screen-geometry patch: the TestSoftware
branch hijack at 0x42/0x44 and the patch_0 out-of-line stub at 0x46. -/
def screenHeadWrites (w h : Nat) : List (Nat × Nat) :=
  wr16 0x42 0x6000 ++
  wr16 0x44 (0x62 - 0x44) ++
  wr16 (0x46 + 0) 0x9bfc ++
  wr32 (0x46 + 2) (screen_distance_from_top w h : Int) ++
  wr16 (0x46 + 6) 0x6000 ++
  wr16 (0x46 + 8) (0x3a4 - (0x46 + 8))

/-- The patch_1 out-of-line stub at 0x50, written when disp_width/8 is at
least 128. -/
def patch1Writes (w : Nat) : List (Nat × Nat) :=
  wr16 (0x50 + 0) 0x3a3c ++
  wr16 (0x50 + 2) (w / 8 : Nat) ++
  wr16 (0x50 + 4) 0xc2c5 ++
  wr16 (0x50 + 6) 0x4e75

/-- The 0x2e branch hijack and the patch_2 stub at 0x32, written when
disp_width/8 is at least 128. -/
def patch2Writes (w : Nat) : List (Nat × Nat) :=
  wr16 0x2e 0x6000 ++
  wr16 0x30 (0x62 - 0x30) ++
  wr16 (0x32 + 0) 0x303c ++
  wr16 (0x32 + 2) (w / 8 : Nat) ++
  wr16 (0x32 + 4) 0x41f8 ++
  wr16 (0x32 + 6) 0x088c ++
  wr16 (0x32 + 8) 0x4e75

/-- The hidecursor stride patch: a jsr to patch_2 for wide screens, a
single byte otherwise. -/
def hidecursorWrites (w : Nat) : List (Nat × Nat) :=
  if 128 ≤ w / 8 then
    wr16 0x1ccc 0x4eba ++ wr16 0x1cce (0x32 - 0x1cce) ++ wr16 0x1cd0 M68K_INST_NOP
  else
    wr8 0x1cd1 (w / 8 : Nat)

/-- The showcursor stride patch: a jsr to patch_1 for wide screens, a
single byte otherwise. -/
def showcursorWrites (w : Nat) : List (Nat × Nat) :=
  if 128 ≤ w / 8 then
    wr16 0x1d92 0x4eba ++ wr16 0x1d94 (0x50 - 0x1d94)
  else
    wr8 0x1d93 (w / 8 : Nat)

/-- The bulk of the screen-geometry constant rewrites of
rom_patch_plusv3, in source order from 0x8a to 0x1e82. -/
def screenTailWrites (w h : Nat) : List (Nat × Nat) :=
  wr32 0x8a (screen_base w h) ++
  wr32 0x146 (screen_base w h) ++
  wr32 0x164 (sbcoord w h ((w / 2 : Nat) - (48 / 2 : Nat)) ((h / 2 : Nat) + 8)) ++
  wr16 0x188 (w / 8 : Nat) ++
  wr16 0x194 (w / 8 : Nat) ++
  wr16 0x19c ((6 * w / 8 : Nat) - 1) ++
  wr32 0x1a4 (sbcoord w h ((w / 2 : Nat) - 8) ((h / 2 : Nat) + 8 + 8)) ++
  wr16 0x1ee ((screen_size w h / 4 : Nat) - 1) ++
  wr32 0xf0c (sbcoord w h ((w / 2 : Nat) - 16) ((h / 2 : Nat) - 26)) ++
  wr32 0xf18 (sbcoord w h ((w / 2 : Nat) - 8) ((h / 2 : Nat) - 20)) ++
  wr32 0x7e0 (sbcoord w h ((w / 2 : Nat) - 16) ((h / 2 : Nat) - 26)) ++
  wr32 0x7f2 (sbcoord w h ((w / 2 : Nat) - 8) ((h / 2 : Nat) - 11)) ++
  wr16 0x3a0 0x6000 ++
  wr16 0x3a2 (0x46 - 0x3a2) ++
  wr16 0x474 (w / 8 : Nat) ++
  wr16 0x494 h ++
  wr16 0x498 w ++
  wr16 0xa0e h ++
  wr16 0xa10 w ++
  wr16 0xee2 ((w / 8 : Nat) - 4) ++
  wr16 0xef2 (w / 8 : Nat) ++
  wr16 0xf36 ((w / 8 : Nat) - 2) ++
  hidecursorWrites w ++
  wr16 0x1d48 ((w : Int) - 32) ++
  wr16 0x1d4e ((w : Int) - 32) ++
  wr16 0x1d6e ((h : Int) - 16) ++
  wr16 0x1d74 h ++
  wr8 0x1d93 (w / 8 : Nat) ++
  wr16 0x1e68 h ++
  showcursorWrites w ++
  wr16 0x1e6e w ++
  wr16 0x1e82 h

/-- rom_patch_plusv3 of rom.c, transcribed with its control flow: fixed
checksum and .Sony writes, the conditional memtop hack, then the
conditional screen-geometry rewrite with its two (dead, since patch_1+8
equals 0x58 and patch_2+10 is below 0x41) early error returns.  The
sony_driver byte table and PV_SONY_ADDR come from headers that are not
part of the core sources, so they are parameters here. -/
def rom_patch_plusv3 (sony_driver : List Nat) (pv_sony_addr : Nat)
    (disp_width disp_height ram_size : Nat) (rom : Image) : Int × Image :=
  let rom := applyWrites (wr16 0xd92 0xb381) rom
  let rom := applyWrites (wrBytes ROM_PLUSv3_SONYDRV sony_driver) rom
  let rom := applyWrites
    (wr32 (ROM_PLUSv3_SONYDRV + sony_driver.length - 4) (pv_sony_addr : Nat)) rom
  let rom :=
    if 128 * 1024 < ram_size ∧ ram_size < 512 * 1024 then
      applyWrites (memtopWrites ram_size) rom
    else rom
  if disp_width ≠ 512 ∨ disp_height ≠ 342 then
    let patch_0 : Nat := 0x46
    let patch_2 : Nat := 0x32
    let patch_1 : Nat := patch_0 + 10
    let rom := applyWrites (screenHeadWrites disp_width disp_height) rom
    if 128 ≤ disp_width / 8 then
      let rom := applyWrites (patch1Writes disp_width) rom
      if 0x58 < patch_1 + 8 then (-1, rom)
      else
        let rom := applyWrites (patch2Writes disp_width) rom
        if 0x41 < patch_2 + 10 then (-1, rom)
        else (0, applyWrites (screenTailWrites disp_width disp_height) rom)
    else (0, applyWrites (screenTailWrites disp_width disp_height) rom)
  else (0, rom)

/-- rom_patch1 of rom.c: dispatch on the ROM version word, patching only
the Mac Plus v3 ROM and refusing anything else with -1. -/
def rom_patch1 (sony_driver : List Nat) (pv_sony_addr : Nat)
    (disp_width disp_height mem_size : Nat) (rom : Image) : Int × Image :=
  let v := rom_get_version rom
  if v = ROM_PLUSv3_VERSION then
    rom_patch_plusv3 sony_driver pv_sony_addr disp_width disp_height mem_size rom
  else
    (-1, rom)

/-- The complete write list performed by a successful rom_patch_plusv3,
for the proofs below. -/
def plusv3Writes (sony_driver : List Nat) (pv_sony_addr : Nat)
    (disp_width disp_height ram_size : Nat) : List (Nat × Nat) :=
  wr16 0xd92 0xb381 ++
  wrBytes ROM_PLUSv3_SONYDRV sony_driver ++
  wr32 (ROM_PLUSv3_SONYDRV + sony_driver.length - 4) (pv_sony_addr : Nat) ++
  (if 128 * 1024 < ram_size ∧ ram_size < 512 * 1024 then memtopWrites ram_size else []) ++
  (if disp_width ≠ 512 ∨ disp_height ≠ 342 then
    screenHeadWrites disp_width disp_height ++
    (if 128 ≤ disp_width / 8 then patch1Writes disp_width ++ patch2Writes disp_width else []) ++
    screenTailWrites disp_width disp_height
  else [])

/-- A concrete all-zero image, used as an example of a buffer whose
version word is not the Mac Plus v3 one. -/
def romZero : Image := fun _ => 0

/-- A concrete image whose first four big-endian bytes form the Mac Plus
v3 version word 0x4D1F8172. -/
def romPlus : Image := fun i =>
  if i = 0 then 0x4d else if i = 1 then 0x1f
  else if i = 2 then 0x81 else if i = 3 then 0x72 else 0

/-- A stand-in 64-byte sony driver table (the real bytes live in
sonydrv.h, outside the core sources; only the length 64 from spec
section 4.6 matters to the statements below). -/
def sonyZero : List Nat := List.replicate 64 0

/-! Interrupt controller (main.c lines 533-555). -/

/-- The two globals of the interrupt controller:
g_int_controller_pending and g_int_controller_highest_int. -/
structure IntCtrl where
  pending : Nat
  highest : Nat
deriving DecidableEq, Repr

/-- The downward scan of int_controller_clear: for(h = 7; h > 0; h--)
break on the first pending bit, leaving 0 if bits 7..1 are all clear. -/
def highest_scan (p : Nat) : Nat :=
  if p &&& (1 <<< 7) ≠ 0 then 7
  else if p &&& (1 <<< 6) ≠ 0 then 6
  else if p &&& (1 <<< 5) ≠ 0 then 5
  else if p &&& (1 <<< 4) ≠ 0 then 4
  else if p &&& (1 <<< 3) ≠ 0 then 3
  else if p &&& (1 <<< 2) ≠ 0 then 2
  else if p &&& (1 <<< 1) ≠ 0 then 1
  else 0

/-- int_controller_set of main.c: or the level into the pending mask and
raise highest_int only when the mask changed and the level is above it.
The m68k_set_irq call carries highest afterwards. -/
def int_controller_set (value : Nat) (s : IntCtrl) : IntCtrl :=
  let old_pending := s.pending
  let pending := s.pending ||| (1 <<< value)
  if old_pending ≠ pending ∧ s.highest < value then
    { pending := pending, highest := value }
  else
    { pending := pending, highest := s.highest }

/-- int_controller_clear of main.c: clear the bit (the pending mask is a
32-bit unsigned int, so the C complement of 1 shifted left is the 32-bit
mask) and rescan for the highest pending level. -/
def int_controller_clear (value : Nat) (s : IntCtrl) : IntCtrl :=
  let pending := s.pending &&& (0xffffffff ^^^ (1 <<< value))
  { pending := pending, highest := highest_scan pending }

inductive CtrlEvent where
  | set (value : Nat)
  | clear (value : Nat)
deriving DecidableEq, Repr

def ctrlStep : CtrlEvent → IntCtrl → IntCtrl
  | .set v, s => int_controller_set v s
  | .clear v, s => int_controller_clear v s

/-- Initial controller state: both globals are 0. -/
def ctrlInit : IntCtrl := { pending := 0, highest := 0 }

def runCtrl (evs : List CtrlEvent) : IntCtrl :=
  evs.foldl (fun s e => ctrlStep e s) ctrlInit

/-- Levels the devices are allowed to use (spec section 4.4: level in
1..7). -/
def levelOk : CtrlEvent → Prop
  | .set v => 1 ≤ v ∧ v ≤ 7
  | .clear v => 1 ≤ v ∧ v ≤ 7

/-- The invariant the controller maintains, as a decidable predicate on
the two globals, used by the bounded case check below: the mask stays
within bits 0..7 and highest is its maximum set bit (0 when empty). -/
def ctrlInv (p hgt : Nat) : Prop :=
  p < 256 ∧ (p = 0 → hgt = 0) ∧
    (p ≠ 0 → p.testBit hgt = true ∧ ∀ b < 8, p.testBit b = true → b ≤ hgt)

instance (p hgt : Nat) : Decidable (ctrlInv p hgt) := by
  unfold ctrlInv
  infer_instance

instance (e : CtrlEvent) : Decidable (levelOk e) :=
  match e with
  | .set v => inferInstanceAs (Decidable (1 ≤ v ∧ v ≤ 7))
  | .clear v => inferInstanceAs (Decidable (1 ≤ v ∧ v ≤ 7))

/-! Overlay flag and the instruction-fetch accessor (main.c lines
147-169, 509-516, 645-649). -/

/-- The two instruction-fetch implementations the function pointer
cpu_read_instr can select (cpu_read_instr_overlay, cpu_read_instr_normal). -/
inductive Fetch where
  | overlayV
  | normalV
deriving DecidableEq, Repr

/-- The globals relevant to overlay handling: the overlay flag, the
cpu_read_instr function pointer, and the static oldval latch of
via_ra_changed. -/
structure OvState where
  overlay : Bool
  fetch : Fetch
  oldval : Nat
deriving DecidableEq, Repr

/-- update_overlay_layout of main.c: point cpu_read_instr at the overlay
or the normal fetch routine according to the overlay flag. -/
def update_overlay_layout (overlay : Bool) : Fetch :=
  if overlay then .overlayV else .normalV

/-- via_ra_changed of main.c: latch the overlay flag from bit 4, call
update_overlay_layout when bit 4 differs from the oldval latch, and
update the latch only when the source is compiled with ENABLE_AUDIO
(in the source, the assignment oldval = val sits inside the
ENABLE_AUDIO conditional block). -/
def via_ra_changed (enable_audio : Bool) (val : Nat) (s : OvState) : OvState :=
  let overlay : Bool := val &&& 0x10 != 0
  let fetch : Fetch :=
    if (s.oldval ^^^ val) &&& 0x10 ≠ 0 then update_overlay_layout overlay else s.fetch
  { overlay := overlay
    fetch := fetch
    oldval := if enable_audio then val else s.oldval }

inductive OvEvent where
  | ra (val : Nat)
  | reset
deriving DecidableEq, Repr

/-- One host-visible event: a VIA port A change observed through
via_ra_changed, or umac_reset (which sets overlay = 1 and re-pulses the
CPU without touching cpu_read_instr). -/
def ovStep (enable_audio : Bool) : OvEvent → OvState → OvState
  | .ra val, s => via_ra_changed enable_audio val s
  | .reset, s => { s with overlay := true }

/-- Initial state: overlay = 1, cpu_read_instr = cpu_read_instr_overlay,
and the static oldval initialised to 0x10. -/
def ovInit : OvState := { overlay := true, fetch := .overlayV, oldval := 0x10 }

def runOv (enable_audio : Bool) (evs : List OvEvent) : OvState :=
  evs.foldl (fun s e => ovStep enable_audio e s) ovInit

/-! RAM accessors and the mouse path (main.c lines 193-204, 621-643).
The RAM_RD/WR macros live in machw.h, which is not among the core
sources. -/

/-- Modelled from the spec: machw.h is not in src.  RAM size defaults to
128 KiB and RAM accesses wrap by masking with RAM_SIZE - 1 (spec
sections 3 and 4.1). -/
def RAM_SIZE : Nat := 128 * 1024

/-- Modelled from the spec: the CLAMP_RAM_ADDR mask (spec section 4.1,
addresses may wrap the RAM buffer by masking with RAM_SIZE - 1). -/
def CLAMP_RAM_ADDR (a : Nat) : Nat := a &&& (RAM_SIZE - 1)

/-- Modelled from the spec: byte read from RAM (machw.h not in src). -/
def RAM_RD8 (ram : Image) (a : Nat) : Nat := ram (CLAMP_RAM_ADDR a) % 256

/-- Modelled from the spec: byte write to RAM (machw.h not in src). -/
def RAM_WR8 (ram : Image) (a v : Nat) : Image :=
  fun i => if i = CLAMP_RAM_ADDR a then v % 256 else ram i

/-- Modelled from the spec: big-endian 16-bit RAM read (spec sections
4.1 and 8, RAM words are unaligned big-endian). -/
def RAM_RD16 (ram : Image) (a : Nat) : Nat :=
  RAM_RD8 ram a * 256 + RAM_RD8 ram (a + 1)

/-- Modelled from the spec: big-endian 16-bit RAM write. -/
def RAM_WR16 (ram : Image) (a v : Nat) : Image :=
  RAM_WR8 (RAM_WR8 ram a (v / 256)) (a + 1) (v % 256)

/-- The low 16 bits, in two-complement, of a C int assigned to an
int16_t and stored back as two bytes. -/
def loWord (v : Int) : Nat := (v % 65536).toNat

def MTemp_h : Nat := 0x82a

def MTemp_v : Nat := 0x828

def CrsrNew : Nat := 0x8ce

def CrsrCouple : Nat := 0x8cf

/-- The globals of the mouse path: the RAM image, the via_quadbits
latch read back through VIA port B bits 5:4, and via_mouse_pressed. -/
structure MouseState where
  ram : Image
  quadbits : Nat
  mousePressed : Nat

/-- umac_mouse of main.c: apply deltax to the 16-bit big-endian word at
MTemp_h, subtract deltay at MTemp_v (both truncated through int16_t),
re-couple the cursor by copying CrsrCouple to CrsrNew when there was
motion, and latch the button into via_mouse_pressed (a uint8_t). -/
def umac_mouse (deltax deltay : Int) (button : Nat) (s : MouseState) : MouseState :=
  let ram := s.ram
  let ram :=
    if deltax ≠ 0 then
      RAM_WR16 ram MTemp_h (loWord ((RAM_RD16 ram MTemp_h : Int) + deltax))
    else ram
  let ram :=
    if deltay ≠ 0 then
      RAM_WR16 ram MTemp_v (loWord ((RAM_RD16 ram MTemp_v : Int) - deltay))
    else ram
  let ram :=
    if deltax ≠ 0 ∨ deltay ≠ 0 then
      RAM_WR8 ram CrsrNew (RAM_RD8 ram CrsrCouple)
    else ram
  { ram := ram, quadbits := s.quadbits, mousePressed := button % 256 }

/-- via_rb_in of main.c: the quadrature latch, with bit 3 set when the
mouse button is not pressed. -/
def via_rb_in (s : MouseState) : Nat :=
  s.quadbits ||| (if s.mousePressed = 0 then 1 <<< 3 else 0)

/-- A concrete mouse state: zero RAM, quadbits at their initial 0,
button up. -/
def mouseInit : MouseState :=
  { ram := fun _ => 0, quadbits := 0, mousePressed := 0 }

/-! Keyboard service (main.c lines 226-292). -/

def KBD_CMD_GET_MODEL : Nat := 0x16

def KBD_CMD_INQUIRY : Nat := 0x10

def KBD_MODEL : Nat := 5

def KBD_RSP_NULL : Nat := 0x7b

def UMAC_EXECLOOP_QUANTUM : Nat := 5000

/-- The keyboard globals: virtual time global_time_us, kbd_last_cmd and
kbd_last_cmd_time, the single-slot event buffer kbd_pending_evt (an int,
-1 when empty), and the log of bytes handed to via_sr_rx (the VIA
shift-register receive entry point lives in via.c, outside the core
sources; the log records the calls the keyboard service makes to it). -/
structure KbdState where
  time : Nat
  lastCmd : Nat
  lastCmdTime : Nat
  pendingEvt : Int
  rx : List Nat

/-- via_sr_tx of main.c: record the transmitted command byte and the
virtual time of the transmit. -/
def via_sr_tx (data : Nat) (s : KbdState) : KbdState :=
  { s with lastCmd := data % 256, lastCmdTime := s.time }

/-- kbd_rx of main.c: answer GET_MODEL with 0x01 | (KBD_MODEL << 1),
answer INQUIRY with the pending event (emptying the one-slot buffer,
the int is truncated to a byte by the via_sr_rx parameter) or
KBD_RSP_NULL, and ignore anything else. -/
def kbd_rx (data : Nat) (s : KbdState) : KbdState :=
  if data = KBD_CMD_GET_MODEL then
    { s with rx := s.rx ++ [0x01 ||| (KBD_MODEL <<< 1)] }
  else if data = KBD_CMD_INQUIRY then
    if s.pendingEvt = -1 then
      { s with rx := s.rx ++ [KBD_RSP_NULL] }
    else
      { s with rx := s.rx ++ [(s.pendingEvt % 256).toNat], pendingEvt := -1 }
  else s

/-- kbd_check_work of main.c: process a pending command only when the
elapsed virtual time since the transmit exceeds one execution-loop
quantum, then clear it.  global_time_us is a monotonically increasing
uint64, so in every reachable state lastCmdTime is at most time and the
Nat subtraction coincides with the C subtraction. -/
def kbd_check_work (s : KbdState) : KbdState :=
  if s.lastCmd ≠ 0 ∧ UMAC_EXECLOOP_QUANTUM < s.time - s.lastCmdTime then
    { kbd_rx s.lastCmd s with lastCmd := 0 }
  else s

/-- umac_kbd_event of main.c: buffer one scancode, with the up bit in
bit 7 (the scancode parameter is a uint8_t). -/
def umac_kbd_event (scancode : Nat) (down : Bool) (s : KbdState) : KbdState :=
  { s with pendingEvt := ((scancode % 256) ||| (if down then 0 else 0x80) : Nat) }

/-- Keyboard state at start of day: all globals zero, empty buffer. -/
def kbdInit : KbdState :=
  { time := 0, lastCmd := 0, lastCmdTime := 0, pendingEvt := -1, rx := [] }

/-- Keyboard state with one buffered scancode 0x41. -/
def kbdEvt : KbdState :=
  { time := 0, lastCmd := 0, lastCmdTime := 0, pendingEvt := 0x41, rx := [] }

/-- Keyboard state with a pending command whose transmit happened more
than one quantum of virtual time ago. -/
def kbdBusy : KbdState :=
  { time := 6000, lastCmd := 0x10, lastCmdTime := 0, pendingEvt := -1, rx := [] }

/-- Keyboard state with a pending command transmitted less than one
quantum ago. -/
def kbdIdle : KbdState :=
  { time := 1000, lastCmd := 0x10, lastCmdTime := 0, pendingEvt := -1, rx := [] }

/-! Fatal-error state, memory map and the PV_SONY_ADDR doorbell (main.c
lines 118-142, 453-488, 645-649, 664-681). -/

/-- The globals of the fatal-error path: sim_done, the static guard_val
of exit_error, and the overlay flag touched by umac_reset. -/
structure MainState where
  done : Bool
  guard : Bool
  overlay : Bool
deriving DecidableEq, Repr

/-- exit_error of main.c: on first entry set the guard, set sim_done and
long-jump to the loop entry; re-entries return immediately. -/
def exit_error (s : MainState) : MainState :=
  if s.guard then s else { s with guard := true, done := true }

/-- umac_reset of main.c: set overlay = 1 and re-pulse the CPU.
sim_done is not touched. -/
def umac_reset (s : MainState) : MainState :=
  { s with overlay := true }

/-- umac_loop of main.c returns sim_done (1 when done). -/
def umac_loop_ret (s : MainState) : Nat :=
  if s.done then 1 else 0

inductive MainEvent where
  | exitErr
  | reset
  | loop
deriving DecidableEq, Repr

/-- The core operations that can run after a fault.  No function in
main.c other than exit_error ever writes sim_done, and none clears it;
umac_loop only advances time, devices and the keyboard service. -/
def mainStep : MainEvent → MainState → MainState
  | .exitErr, s => exit_error s
  | .reset, s => umac_reset s
  | .loop, s => s

def runMain (evs : List MainEvent) (s : MainState) : MainState :=
  evs.foldl (fun t e => mainStep e t) s

/-- Modelled from the spec: machw.h is not in src.  RAM region of the
address map (spec section 4.1): 0x600000-0x6FFFFF under overlay, low
memory below the ROM at 0x400000 otherwise. -/
def IS_RAM (overlay : Bool) (a : Nat) : Bool :=
  if overlay then decide (0x600000 ≤ a ∧ a ≤ 0x6fffff) else decide (a < 0x400000)

/-- Modelled from the spec: VIA region 0xE80000-0xEFFFFF (spec 4.1). -/
def IS_VIA (a : Nat) : Bool := decide (0xe80000 ≤ a ∧ a ≤ 0xefffff)

/-- Modelled from the spec: IWM region 0xC00000-0xDFFFFF (spec 4.1). -/
def IS_IWM (a : Nat) : Bool := decide (0xc00000 ≤ a ∧ a ≤ 0xdfffff)

/-- Modelled from the spec: SCC write region 0xA00000-0xBFFFFF (spec 4.1). -/
def IS_SCC_WR (a : Nat) : Bool := decide (0xa00000 ≤ a ∧ a ≤ 0xbfffff)

/-- Modelled from the spec: dummy region 0xF00000-0xFFFFFF minus the
dedicated PV_SONY_ADDR word, which spec sections 4.1 and 4.6 describe as
a single word in dummy space whose writes must reach the disc service. -/
def IS_DUMMY (pv_sony_addr : Nat) (a : Nat) : Bool :=
  decide (0xf00000 ≤ a ∧ a ≤ 0xffffff ∧ a ≠ pv_sony_addr)

/-- Start-of-day fatal-error state: not done, guard clear, overlay set. -/
def mainInit : MainState := { done := false, guard := false, overlay := true }

/-- The state right after a fatal fault: done and guard both set. -/
def mainFault : MainState := { done := true, guard := true, overlay := true }

/-- The classification a byte write receives in cpu_write_byte. -/
inductive WriteEffect where
  | ramWrite (addr : Nat) (value : Nat)
  | viaWrite
  | iwmWrite
  | sccWrite
  | dummyIgnore
  | sonyHook (tag : Nat)
  | logIgnore
deriving DecidableEq, Repr

/-- cpu_write_byte of main.c: probe RAM, then the VIA, IWM, SCC-write
and dummy regions in source order, then the PV_SONY_ADDR doorbell,
falling through to the ignored-write log. -/
def cpu_write_byte (overlay : Bool) (pv_sony_addr : Nat)
    (address value : Nat) : WriteEffect :=
  if IS_RAM overlay address then .ramWrite (CLAMP_RAM_ADDR address) value
  else if IS_VIA address then .viaWrite
  else if IS_IWM address then .iwmWrite
  else if IS_SCC_WR address then .sccWrite
  else if IS_DUMMY pv_sony_addr address then .dummyIgnore
  else if address = pv_sony_addr then .sonyHook value
  else .logIgnore

/-- The fatal branch of cpu_write_byte: a write that hits the
PV_SONY_ADDR doorbell calls disc_pv_hook (disc.c is outside the core
sources, so the hook is a parameter) with the written byte, and a
nonzero result raises exit_error. -/
def cpu_write_byte_run (overlay : Bool) (pv_sony_addr : Nat)
    (address value : Nat) (hook : Nat → Int) (s : MainState) : MainState :=
  match cpu_write_byte overlay pv_sony_addr address value with
  | .sonyHook tag => if hook tag ≠ 0 then exit_error s else s
  | _ => s

/-! Lemmas about write lists. -/

theorem applyWrites_nil (rom : Image) : applyWrites [] rom = rom := rfl

theorem applyWrites_cons (p : Nat × Nat) (ws : List (Nat × Nat)) (rom : Image) :
    applyWrites (p :: ws) rom
      = applyWrites ws (fun i => if i = p.1 then p.2 % 256 else rom i) := rfl

theorem applyWrites_append (l1 l2 : List (Nat × Nat)) (rom : Image) :
    applyWrites (l1 ++ l2) rom = applyWrites l2 (applyWrites l1 rom) := by
  simp [applyWrites, List.foldl_append]

theorem writeLookup_nil (i : Nat) : writeLookup [] i = none := rfl

theorem writeLookup_foldl (ws : List (Nat × Nat)) (i : Nat) (a : Option Nat) :
    ws.foldl (fun acc p => if p.1 = i then some p.2 else acc) a
      = (writeLookup ws i).elim a some := by
  induction ws generalizing a with
  | nil => rfl
  | cons q t ih =>
    show t.foldl _ (if q.1 = i then some q.2 else a) = _
    rw [ih]
    have hq : writeLookup (q :: t) i
        = (writeLookup t i).elim (if q.1 = i then some q.2 else none) some := by
      show t.foldl _ (if q.1 = i then some q.2 else none) = _
      rw [ih]
    rw [hq]
    cases writeLookup t i with
    | none => by_cases h : q.1 = i <;> simp [h]
    | some v => simp

theorem applyWrites_apply (ws : List (Nat × Nat)) (rom : Image) (i : Nat) :
    applyWrites ws rom i = (writeLookup ws i).elim (rom i) (fun v => v % 256) := by
  induction ws generalizing rom with
  | nil => rfl
  | cons q t ih =>
    rw [applyWrites_cons, ih]
    have hq : writeLookup (q :: t) i
        = (writeLookup t i).elim (if q.1 = i then some q.2 else none) some := by
      show t.foldl _ (if q.1 = i then some q.2 else none) = _
      rw [writeLookup_foldl]
    rw [hq]
    cases writeLookup t i with
    | none =>
      by_cases h : q.1 = i
      · simp [h]
      · have h2 : ¬ i = q.1 := fun he => h he.symm
        simp [h, h2]
    | some v => simp

theorem applyWrites_idem (ws : List (Nat × Nat)) (rom : Image) :
    applyWrites ws (applyWrites ws rom) = applyWrites ws rom := by
  funext i
  rw [applyWrites_apply, applyWrites_apply]
  cases h : writeLookup ws i with
  | none => simp [Option.elim, applyWrites_apply, h]
  | some v => simp [Option.elim, Nat.mod_mod_of_dvd]

theorem writeLookup_eq_none (ws : List (Nat × Nat)) (i : Nat)
    (h : ∀ p ∈ ws, p.1 ≠ i) : writeLookup ws i = none := by
  induction ws with
  | nil => rfl
  | cons q t ih =>
    have hq : writeLookup (q :: t) i
        = (writeLookup t i).elim (if q.1 = i then some q.2 else none) some := by
      show t.foldl _ (if q.1 = i then some q.2 else none) = _
      rw [writeLookup_foldl]
    rw [hq, ih (fun p hp => h p (List.mem_cons_of_mem q hp))]
    simp [h q (List.mem_cons_self q t)]

theorem applyWrites_eq_of_ne (ws : List (Nat × Nat)) (rom : Image) (i : Nat)
    (h : ∀ p ∈ ws, p.1 ≠ i) : applyWrites ws rom i = rom i := by
  rw [applyWrites_apply, writeLookup_eq_none ws i h]
  rfl

theorem wrBytes_mem {off : Nat} {bs : List Nat} {p : Nat × Nat}
    (h : p ∈ wrBytes off bs) : off ≤ p.1 ∧ p.1 < off + bs.length := by
  simp only [wrBytes, List.mem_map, List.mem_range] at h
  obtain ⟨i, hi, he⟩ := h
  rw [← he]
  exact ⟨Nat.le_add_right off i, by omega⟩

theorem wr8_mem {off : Nat} {v : Int} {p : Nat × Nat}
    (h : p ∈ wr8 off v) : p.1 = off := by
  have := wrBytes_mem h
  simp only [List.length_cons, List.length_nil] at this
  omega

theorem wr16_mem {off : Nat} {v : Int} {p : Nat × Nat}
    (h : p ∈ wr16 off v) : off ≤ p.1 ∧ p.1 < off + 2 := by
  have := wrBytes_mem h
  simp only [List.length_cons, List.length_nil] at this
  omega

theorem wr32_mem {off : Nat} {v : Int} {p : Nat × Nat}
    (h : p ∈ wr32 off v) : off ≤ p.1 ∧ p.1 < off + 4 := by
  have := wrBytes_mem h
  simp only [List.length_cons, List.length_nil] at this
  omega

/-! The patch as a single write list.  The two in-source early error
returns are dead (patch_1 + 8 = 0x58 and patch_2 + 10 = 0x3c), so a
rom_patch_plusv3 call always succeeds and performs exactly the
plusv3Writes list. -/

theorem rom_patch_plusv3_eq (sony : List Nat) (pv w h ram : Nat) (rom : Image) :
    rom_patch_plusv3 sony pv w h ram rom
      = (0, applyWrites (plusv3Writes sony pv w h ram) rom) := by
  unfold rom_patch_plusv3 plusv3Writes
  by_cases hram : 128 * 1024 < ram ∧ ram < 512 * 1024 <;>
    by_cases hd : w ≠ 512 ∨ h ≠ 342 <;>
      by_cases hw : 128 ≤ w / 8 <;>
        simp [hram, hd, hw, applyWrites_append, applyWrites_nil]

theorem memtopWrites_lb (ram : Nat) : ∀ p ∈ memtopWrites ram, 4 ≤ p.1 := by
  intro p hp
  unfold memtopWrites at hp
  simp only [List.mem_append, or_assoc] at hp
  rcases hp with hp | hp | hp | hp | hp | hp | hp | hp | hp <;>
    (have h9 := wrBytes_mem hp;
     simp only [List.length_cons, List.length_nil] at h9; omega)

theorem screenHeadWrites_lb (w h : Nat) : ∀ p ∈ screenHeadWrites w h, 4 ≤ p.1 := by
  intro p hp
  unfold screenHeadWrites at hp
  simp only [List.mem_append, or_assoc] at hp
  rcases hp with hp | hp | hp | hp | hp | hp <;>
    (have h9 := wrBytes_mem hp;
     simp only [List.length_cons, List.length_nil] at h9; omega)

theorem patch1Writes_lb (w : Nat) : ∀ p ∈ patch1Writes w, 4 ≤ p.1 := by
  intro p hp
  unfold patch1Writes at hp
  simp only [List.mem_append, or_assoc] at hp
  rcases hp with hp | hp | hp | hp <;> (have h9 := wr16_mem hp; omega)

theorem patch2Writes_lb (w : Nat) : ∀ p ∈ patch2Writes w, 4 ≤ p.1 := by
  intro p hp
  unfold patch2Writes at hp
  simp only [List.mem_append, or_assoc] at hp
  rcases hp with hp | hp | hp | hp | hp | hp | hp <;> (have h9 := wr16_mem hp; omega)

theorem hidecursorWrites_lb (w : Nat) : ∀ p ∈ hidecursorWrites w, 4 ≤ p.1 := by
  intro p hp
  unfold hidecursorWrites at hp
  split at hp
  · simp only [List.mem_append, or_assoc] at hp
    rcases hp with hp | hp | hp <;> (have h9 := wr16_mem hp; omega)
  · have := wr8_mem hp; omega

theorem showcursorWrites_lb (w : Nat) : ∀ p ∈ showcursorWrites w, 4 ≤ p.1 := by
  intro p hp
  unfold showcursorWrites at hp
  split at hp
  · simp only [List.mem_append, or_assoc] at hp
    rcases hp with hp | hp <;> (have h9 := wr16_mem hp; omega)
  · have := wr8_mem hp; omega

theorem screenTailWrites_lb (w h : Nat) : ∀ p ∈ screenTailWrites w h, 4 ≤ p.1 := by
  intro p hp
  unfold screenTailWrites at hp
  simp only [List.mem_append, or_assoc] at hp
  rcases hp with hp | hp | hp | hp | hp | hp | hp | hp | hp | hp | hp | hp | hp | hp |
    hp | hp | hp | hp | hp | hp | hp | hp | hp | hp | hp | hp | hp | hp | hp | hp |
    hp | hp <;>
    first
      | (have h9 := wrBytes_mem hp;
         simp only [List.length_cons, List.length_nil] at h9; omega)
      | (exact hidecursorWrites_lb w p hp)
      | (exact showcursorWrites_lb w p hp)

theorem plusv3Writes_lb (sony : List Nat) (pv w h ram : Nat) :
    ∀ p ∈ plusv3Writes sony pv w h ram, 4 ≤ p.1 := by
  intro p hp
  unfold plusv3Writes at hp
  simp only [List.mem_append, or_assoc] at hp
  rcases hp with hp | hp | hp | hp | hp
  · have := wr16_mem hp; omega
  · have := wrBytes_mem hp
    unfold ROM_PLUSv3_SONYDRV at this
    omega
  · have := wr32_mem hp
    unfold ROM_PLUSv3_SONYDRV at this
    omega
  · split at hp
    · exact memtopWrites_lb ram p hp
    · simp at hp
  · split at hp
    · simp only [List.mem_append, or_assoc] at hp
      rcases hp with hp | hp | hp
      · exact screenHeadWrites_lb w h p hp
      · split at hp
        · simp only [List.mem_append, or_assoc] at hp
          rcases hp with hp | hp
          · exact patch1Writes_lb w p hp
          · exact patch2Writes_lb w p hp
        · simp at hp
      · exact screenTailWrites_lb w h p hp
    · simp at hp

theorem rom_get_version_applyWrites (ws : List (Nat × Nat)) (rom : Image)
    (h : ∀ p ∈ ws, 4 ≤ p.1) :
    rom_get_version (applyWrites ws rom) = rom_get_version rom := by
  unfold rom_get_version
  rw [applyWrites_eq_of_ne ws rom 0 (fun p hp => by have := h p hp; omega),
    applyWrites_eq_of_ne ws rom 1 (fun p hp => by have := h p hp; omega),
    applyWrites_eq_of_ne ws rom 2 (fun p hp => by have := h p hp; omega),
    applyWrites_eq_of_ne ws rom 3 (fun p hp => by have := h p hp; omega)]

theorem rom_patch1_plusv3 (sony : List Nat) (pv w h ram : Nat) (rom : Image)
    (hv : rom_get_version rom = ROM_PLUSv3_VERSION) :
    rom_patch1 sony pv w h ram rom
      = (0, applyWrites (plusv3Writes sony pv w h ram) rom) := by
  simp only [rom_patch1]
  rw [if_pos hv]
  exact rom_patch_plusv3_eq sony pv w h ram rom

/-- C7: a ROM buffer whose first four big-endian bytes are not the Mac
Plus v3 version word 0x4D1F8172 is refused by rom_patch1 with a nonzero
result, and no byte of the buffer is modified, so the callers
(unix_main.c, the standalone patcher) abort before starting emulation. -/
theorem c7_unknown_rom_refused (sony : List Nat) (pv w h ram : Nat) (rom : Image)
    (hv : rom_get_version rom ≠ ROM_PLUSv3_VERSION) :
    (rom_patch1 sony pv w h ram rom).1 ≠ 0 ∧
      ∀ i, (rom_patch1 sony pv w h ram rom).2 i = rom i := by
  simp only [rom_patch1]
  rw [if_neg hv]
  exact ⟨by simp, fun i => rfl⟩

/-- Witness for C7 at a concrete all-zero ROM buffer. -/
theorem c7_witness :
    (rom_patch1 sonyZero 0xf80000 512 342 131072 romZero).1 ≠ 0 ∧
      ∀ i, (rom_patch1 sonyZero 0xf80000 512 342 131072 romZero).2 i = romZero i :=
  c7_unknown_rom_refused sonyZero 0xf80000 512 342 131072 romZero (by decide)

/-- C8: for a Mac Plus v3 ROM buffer the patch succeeds (the two
in-source error returns are dead code), and for every fixed display
width, height and RAM size, applying rom_patch1 twice yields exactly the
bytes of applying it once. -/
theorem c8_patch_idempotent (sony : List Nat) (pv w h ram : Nat) (rom : Image)
    (hv : rom_get_version rom = ROM_PLUSv3_VERSION) :
    (rom_patch1 sony pv w h ram rom).1 = 0 ∧
      (rom_patch1 sony pv w h ram (rom_patch1 sony pv w h ram rom).2).2
        = (rom_patch1 sony pv w h ram rom).2 := by
  have h1 := rom_patch1_plusv3 sony pv w h ram rom hv
  have hver : rom_get_version (applyWrites (plusv3Writes sony pv w h ram) rom)
      = ROM_PLUSv3_VERSION := by
    rw [rom_get_version_applyWrites _ rom (plusv3Writes_lb sony pv w h ram)]
    exact hv
  have h2 := rom_patch1_plusv3 sony pv w h ram
    (applyWrites (plusv3Writes sony pv w h ram) rom) hver
  refine ⟨by rw [h1], ?_⟩
  rw [h1]
  show (rom_patch1 sony pv w h ram (applyWrites (plusv3Writes sony pv w h ram) rom)).2 = _
  rw [h2]
  exact applyWrites_idem (plusv3Writes sony pv w h ram) rom

/-- Witness for C8 at a concrete Mac Plus v3 header. -/
theorem c8_witness :
    (rom_patch1 sonyZero 0xf80000 640 480 262144 romPlus).1 = 0 ∧
      (rom_patch1 sonyZero 0xf80000 640 480 262144
          (rom_patch1 sonyZero 0xf80000 640 480 262144 romPlus).2).2
        = (rom_patch1 sonyZero 0xf80000 640 480 262144 romPlus).2 :=
  c8_patch_idempotent sonyZero 0xf80000 640 480 262144 romPlus (by decide)

/-- C9: in the 512x342, 128 KiB configuration the Mac Plus v3 patch
writes only the checksum-compare word at 0xD92/0xD93 and the 64-byte
.Sony driver region 0x17D30..0x17D6F (whose last four bytes carry
PV_SONY_ADDR); every other ROM byte is unchanged. -/
theorem c9_patch_frame_512x342 (sony : List Nat) (pv : Nat) (rom : Image) (i : Nat)
    (hs : sony.length = 64)
    (hv : rom_get_version rom = ROM_PLUSv3_VERSION)
    (h1 : i ≠ 0xd92) (h2 : i ≠ 0xd93)
    (h3 : ¬(0x17d30 ≤ i ∧ i ≤ 0x17d6f)) :
    (rom_patch1 sony pv 512 342 (128 * 1024) rom).2 i = rom i := by
  rw [rom_patch1_plusv3 sony pv 512 342 (128 * 1024) rom hv]
  show applyWrites (plusv3Writes sony pv 512 342 (128 * 1024)) rom i = rom i
  apply applyWrites_eq_of_ne
  intro p hp
  unfold plusv3Writes at hp
  have hc1 : ¬(128 * 1024 < 128 * 1024 ∧ 128 * 1024 < 512 * 1024) := by omega
  have hc2 : ¬((512 : Nat) ≠ 512 ∨ (342 : Nat) ≠ 342) := by simp
  rw [if_neg hc1, if_neg hc2] at hp
  simp only [List.append_nil, List.mem_append, or_assoc] at hp
  rcases hp with hp | hp | hp
  · have := wrBytes_mem hp
    simp only [List.length_cons, List.length_nil] at this
    omega
  · have := wrBytes_mem hp
    rw [hs] at this
    unfold ROM_PLUSv3_SONYDRV at this
    omega
  · have := wrBytes_mem hp
    rw [hs] at this
    simp only [List.length_cons, List.length_nil] at this
    unfold ROM_PLUSv3_SONYDRV at this
    omega

/-- Witness for C9 at a concrete byte outside the two patched ranges. -/
theorem c9_witness :
    (rom_patch1 sonyZero 0xf80000 512 342 (128 * 1024) romPlus).2 0x100 = romPlus 0x100 :=
  c9_patch_frame_512x342 sonyZero 0xf80000 romPlus 0x100 (by decide) (by decide)
    (by decide) (by decide) (by decide)

/-! Interrupt controller: the highest-pending-level invariant. -/

theorem ctrlInv_hgt_lt {p hgt : Nat} (h : ctrlInv p hgt) : hgt < 8 := by
  obtain ⟨hp, h0, hn⟩ := h
  by_cases hz : p = 0
  · have := h0 hz
    omega
  · have hbit := (hn hz).1
    by_contra hge
    have : p < 2 ^ hgt := by
      calc p < 256 := hp
      _ ≤ 2 ^ hgt := by
        have : (2 : Nat) ^ 8 ≤ 2 ^ hgt := Nat.pow_le_pow_right (by omega) (by omega)
        omega
    rw [Nat.testBit_eq_false_of_lt this] at hbit
    exact Bool.false_ne_true hbit

theorem testBit_ne_zero {p b : Nat} (h : p.testBit b = true) : p ≠ 0 := by
  intro hz
  rw [hz, Nat.zero_testBit] at h
  exact Bool.false_ne_true h

set_option maxRecDepth 10000 in
theorem highest_scan_inv : ∀ q < 256, ctrlInv q (highest_scan q) := by decide

theorem or_two_pow_lt {p v : Nat} (hp : p < 256) (hv : v < 8) : p ||| 2 ^ v < 256 := by
  have h8 : (256 : Nat) = 2 ^ 8 := by norm_num
  rw [h8] at hp ⊢
  exact Nat.or_lt_two_pow hp (Nat.pow_lt_pow_right (by omega) hv)

theorem int_controller_set_inv (p hgt v : Nat) (hp : p < 256) (hv : v < 8)
    (h : ctrlInv p hgt) :
    ctrlInv (int_controller_set v ⟨p, hgt⟩).pending
      (int_controller_set v ⟨p, hgt⟩).highest := by
  obtain ⟨-, h0, hn⟩ := h
  unfold int_controller_set
  simp only [Nat.one_shiftLeft]
  have hbitv : (p ||| 2 ^ v).testBit v = true := by
    rw [Nat.testBit_or, Nat.testBit_two_pow_self, Bool.or_true]
  have hmax : ∀ b, (p ||| 2 ^ v).testBit b = true → b = v ∨ p.testBit b = true := by
    intro b hb
    rw [Nat.testBit_or] at hb
    simp only [Bool.or_eq_true] at hb
    rcases hb with hb | hb
    · exact Or.inr hb
    · by_cases hbv : v = b
      · exact Or.inl hbv.symm
      · rw [Nat.testBit_two_pow_of_ne hbv] at hb
        exact absurd hb (by simp)
  split
  · rename_i hcond
    show ctrlInv (p ||| 2 ^ v) v
    refine ⟨or_two_pow_lt hp hv,
      fun hz => absurd hz (testBit_ne_zero hbitv), fun _ => ⟨hbitv, ?_⟩⟩
    intro b _ hb
    rcases hmax b hb with rfl | hb
    · exact Nat.le_refl b
    · have hpz : p ≠ 0 := testBit_ne_zero hb
      have := (hn hpz).2 b (by
        by_contra hb8
        have : p < 2 ^ b := by
          have h28 : (2 : Nat) ^ 8 ≤ 2 ^ b := Nat.pow_le_pow_right (by omega) (by omega)
          omega
        rw [Nat.testBit_eq_false_of_lt this] at hb
        exact Bool.false_ne_true hb) hb
      omega
  · rename_i hcond
    show ctrlInv (p ||| 2 ^ v) hgt
    by_cases heq : p = p ||| 2 ^ v
    · rw [← heq]
      exact ⟨hp, h0, hn⟩
    · have hvh : v ≤ hgt := by
        rcases Decidable.not_and_iff_or_not.mp hcond with hc | hc
        · exact absurd heq (by simpa using hc)
        · omega
      have hbith : (p ||| 2 ^ v).testBit hgt = true := by
        by_cases hpz : p = 0
        · have hg0 : hgt = 0 := h0 hpz
          have hv0 : v = 0 := by omega
          subst hg0
          subst hv0
          exact hbitv
        · rw [Nat.testBit_or, (hn hpz).1, Bool.true_or]
      refine ⟨or_two_pow_lt hp hv,
        fun hz => absurd hz (testBit_ne_zero hbitv), fun _ => ⟨hbith, ?_⟩⟩
      intro b hb8 hb
      rcases hmax b hb with rfl | hb
      · exact hvh
      · have hpz : p ≠ 0 := testBit_ne_zero hb
        exact (hn hpz).2 b hb8 hb

theorem int_controller_clear_inv (p hgt v : Nat) (hp : p < 256) :
    ctrlInv (int_controller_clear v ⟨p, hgt⟩).pending
      (int_controller_clear v ⟨p, hgt⟩).highest := by
  unfold int_controller_clear
  simp only
  have hle : p &&& (0xffffffff ^^^ (1 <<< v)) ≤ p := Nat.and_le_left
  exact highest_scan_inv _ (by omega)

theorem runCtrl_aux (evs : List CtrlEvent) :
    ∀ s : IntCtrl, ctrlInv s.pending s.highest → (∀ e ∈ evs, levelOk e) →
      ctrlInv ((evs.foldl (fun t e => ctrlStep e t) s)).pending
        ((evs.foldl (fun t e => ctrlStep e t) s)).highest := by
  induction evs with
  | nil => exact fun s hs _ => hs
  | cons e t ih =>
    intro s hs hok
    have he := hok e (List.mem_cons_self e t)
    have hp : s.pending < 256 := hs.1
    have hh : s.highest < 8 := ctrlInv_hgt_lt hs
    have hstep : ctrlInv (ctrlStep e s).pending (ctrlStep e s).highest := by
      cases e with
      | set v =>
        have hv : v < 8 := by
          have h2 : 1 ≤ v ∧ v ≤ 7 := he
          omega
        exact int_controller_set_inv s.pending s.highest v hp hv hs
      | clear v =>
        have hv : v < 8 := by
          have h2 : 1 ≤ v ∧ v ≤ 7 := he
          omega
        exact int_controller_clear_inv s.pending s.highest v hp
    exact ih (ctrlStep e s) hstep (fun x hx => hok x (List.mem_cons_of_mem e hx))

/-- C2: after any sequence of int_controller_set and int_controller_clear
calls with levels in 1..7, starting from the reset state, the reported
level highest (the value handed to m68k_set_irq) is the maximum bit
index set in the pending mask, or 0 when the mask is empty. -/
theorem c2_highest_is_max (evs : List CtrlEvent) (h : ∀ e ∈ evs, levelOk e) :
    ((runCtrl evs).pending = 0 → (runCtrl evs).highest = 0) ∧
      ((runCtrl evs).pending ≠ 0 →
        (runCtrl evs).pending.testBit (runCtrl evs).highest = true ∧
          ∀ b, (runCtrl evs).pending.testBit b = true → b ≤ (runCtrl evs).highest) := by
  have hinv : ctrlInv (runCtrl evs).pending (runCtrl evs).highest :=
    runCtrl_aux evs ctrlInit (by decide) h
  obtain ⟨hp, h0, hn⟩ := hinv
  refine ⟨h0, fun hne => ⟨(hn hne).1, fun b hb => ?_⟩⟩
  by_cases hb8 : b < 8
  · exact (hn hne).2 b hb8 hb
  · exfalso
    have : (runCtrl evs).pending < 2 ^ b := by
      calc (runCtrl evs).pending < 256 := hp
      _ ≤ 2 ^ b := by
        have : (2 : Nat) ^ 8 ≤ 2 ^ b := Nat.pow_le_pow_right (by omega) (by omega)
        omega
    rw [Nat.testBit_eq_false_of_lt this] at hb
    exact Bool.false_ne_true hb

/-- Witness for C2 on the concrete trace set 3, set 5, clear 5. -/
theorem c2_witness :
    ((runCtrl [CtrlEvent.set 3, CtrlEvent.set 5, CtrlEvent.clear 5]).pending = 0 →
        (runCtrl [CtrlEvent.set 3, CtrlEvent.set 5, CtrlEvent.clear 5]).highest = 0) ∧
      ((runCtrl [CtrlEvent.set 3, CtrlEvent.set 5, CtrlEvent.clear 5]).pending ≠ 0 →
        (runCtrl [CtrlEvent.set 3, CtrlEvent.set 5,
            CtrlEvent.clear 5]).pending.testBit
          (runCtrl [CtrlEvent.set 3, CtrlEvent.set 5, CtrlEvent.clear 5]).highest = true ∧
          ∀ b, (runCtrl [CtrlEvent.set 3, CtrlEvent.set 5,
              CtrlEvent.clear 5]).pending.testBit b = true →
            b ≤ (runCtrl [CtrlEvent.set 3, CtrlEvent.set 5, CtrlEvent.clear 5]).highest) :=
  c2_highest_is_max [CtrlEvent.set 3, CtrlEvent.set 5, CtrlEvent.clear 5] (by decide)

/-! Overlay flag versus the instruction-fetch dispatch. -/

theorem runOv_append (enable_audio : Bool) (evs : List OvEvent) (e : OvEvent) :
    runOv enable_audio (evs ++ [e]) = ovStep enable_audio e (runOv enable_audio evs) := by
  unfold runOv
  rw [List.foldl_append]
  rfl

theorem ovStep_fetch_oldval (e : OvEvent) (s : OvState)
    (h : s.fetch = update_overlay_layout (s.oldval &&& 0x10 != 0)) :
    (ovStep true e s).fetch
      = update_overlay_layout ((ovStep true e s).oldval &&& 0x10 != 0) := by
  cases e with
  | reset => exact h
  | ra val =>
    show (if (s.oldval ^^^ val) &&& 0x10 ≠ 0
        then update_overlay_layout (val &&& 0x10 != 0) else s.fetch)
      = update_overlay_layout (val &&& 0x10 != 0)
    split
    · rfl
    · rename_i ht
      rw [h]
      have h2 : (s.oldval ^^^ val) &&& 0x10 = 0 := by
        by_contra hc
        exact ht hc
      rw [Nat.and_xor_distrib_right] at h2
      have hb : s.oldval &&& 0x10 = val &&& 0x10 := Nat.xor_eq_zero.mp h2
      rw [hb]

theorem runOv_fetch_oldval (evs : List OvEvent) :
    (runOv true evs).fetch
      = update_overlay_layout ((runOv true evs).oldval &&& 0x10 != 0) := by
  suffices haux : ∀ (l : List OvEvent) (s : OvState),
      s.fetch = update_overlay_layout (s.oldval &&& 0x10 != 0) →
      (l.foldl (fun t e => ovStep true e t) s).fetch
        = update_overlay_layout
            ((l.foldl (fun t e => ovStep true e t) s).oldval &&& 0x10 != 0) by
    exact haux evs ovInit rfl
  intro l
  induction l with
  | nil => exact fun s h => h
  | cons e t ih => exact fun s h => ih (ovStep true e s) (ovStep_fetch_oldval e s h)

/-- C1 counterexample: with the audio path compiled in (without it the
mismatch is even easier to reach), clear overlay through port A, then
call umac_reset.  The overlay flag is back to true, but the
instruction-fetch dispatch still points at the normal (RAM-low) fetch
routine, so after umac_reset the accessor does not match the flag as the
claim states. -/
theorem c1_counterexample :
    (runOv true [OvEvent.ra 0x00, OvEvent.reset]).overlay = true ∧
      (runOv true [OvEvent.ra 0x00, OvEvent.reset]).fetch = Fetch.normalV := by
  decide

/-- C1 (amended): with ENABLE_AUDIO compiled in, after every VIA port A
change observed through via_ra_changed the instruction-fetch accessor
matches the overlay flag (bit 4 of the written value), whatever sequence
of port A changes and resets came before; umac_reset itself sets the
overlay flag to true but leaves the fetch accessor (and the rest of the
state) unchanged, so the dispatch is only re-evaluated on the next port
A change whose bit 4 differs from the latched previous value. -/
theorem c1_overlay_dispatch_amended :
    (∀ (evs : List OvEvent) (val : Nat),
        (runOv true (evs ++ [OvEvent.ra val])).fetch
          = update_overlay_layout (runOv true (evs ++ [OvEvent.ra val])).overlay) ∧
      ∀ s : OvState, ovStep true OvEvent.reset s = { s with overlay := true } := by
  constructor
  · intro evs val
    have hinv := runOv_fetch_oldval (evs ++ [OvEvent.ra val])
    rw [runOv_append] at hinv ⊢
    rw [hinv]
    rfl
  · exact fun s => rfl

/-! RAM accessor lemmas and the mouse path. -/

theorem RAM_RD8_WR8_ne (ram : Image) (a b v : Nat)
    (h : CLAMP_RAM_ADDR b ≠ CLAMP_RAM_ADDR a) :
    RAM_RD8 (RAM_WR8 ram a v) b = RAM_RD8 ram b := by
  unfold RAM_RD8 RAM_WR8
  rw [if_neg h]

theorem RAM_RD8_WR8_eq (ram : Image) (a b v : Nat)
    (h : CLAMP_RAM_ADDR b = CLAMP_RAM_ADDR a) :
    RAM_RD8 (RAM_WR8 ram a v) b = v % 256 := by
  unfold RAM_RD8 RAM_WR8
  rw [if_pos h]
  exact Nat.mod_mod_of_dvd v dvd_rfl

theorem RAM_RD16_WR8_ne (ram : Image) (b c v : Nat)
    (h1 : CLAMP_RAM_ADDR b ≠ CLAMP_RAM_ADDR c)
    (h2 : CLAMP_RAM_ADDR (b + 1) ≠ CLAMP_RAM_ADDR c) :
    RAM_RD16 (RAM_WR8 ram c v) b = RAM_RD16 ram b := by
  unfold RAM_RD16
  rw [RAM_RD8_WR8_ne ram c b v h1, RAM_RD8_WR8_ne ram c (b + 1) v h2]

theorem RAM_RD16_WR16_ne (ram : Image) (a b v : Nat)
    (h1 : CLAMP_RAM_ADDR b ≠ CLAMP_RAM_ADDR a)
    (h2 : CLAMP_RAM_ADDR b ≠ CLAMP_RAM_ADDR (a + 1))
    (h3 : CLAMP_RAM_ADDR (b + 1) ≠ CLAMP_RAM_ADDR a)
    (h4 : CLAMP_RAM_ADDR (b + 1) ≠ CLAMP_RAM_ADDR (a + 1)) :
    RAM_RD16 (RAM_WR16 ram a v) b = RAM_RD16 ram b := by
  unfold RAM_RD16 RAM_WR16
  rw [RAM_RD8_WR8_ne _ (a + 1) b _ h2, RAM_RD8_WR8_ne _ a b _ h1,
    RAM_RD8_WR8_ne _ (a + 1) (b + 1) _ h4, RAM_RD8_WR8_ne _ a (b + 1) _ h3]

theorem RAM_RD16_WR16_same (ram : Image) (a v : Nat) (hv : v < 65536)
    (hne : CLAMP_RAM_ADDR a ≠ CLAMP_RAM_ADDR (a + 1)) :
    RAM_RD16 (RAM_WR16 ram a v) a = v := by
  unfold RAM_RD16 RAM_WR16
  rw [RAM_RD8_WR8_ne _ (a + 1) a _ hne,
    RAM_RD8_WR8_eq _ a a _ rfl,
    RAM_RD8_WR8_eq _ (a + 1) (a + 1) _ rfl]
  omega

theorem RAM_RD8_WR16_ne (ram : Image) (a b v : Nat)
    (h1 : CLAMP_RAM_ADDR b ≠ CLAMP_RAM_ADDR a)
    (h2 : CLAMP_RAM_ADDR b ≠ CLAMP_RAM_ADDR (a + 1)) :
    RAM_RD8 (RAM_WR16 ram a v) b = RAM_RD8 ram b := by
  unfold RAM_WR16
  rw [RAM_RD8_WR8_ne _ (a + 1) b _ h2, RAM_RD8_WR8_ne _ a b _ h1]

theorem loWord_lt (v : Int) : loWord v < 65536 := by
  unfold loWord
  omega

/-- C3 counterexample: a umac_mouse call reporting nonzero motion in
both axes leaves the quadrature latch, and hence VIA port B bits 5:4,
exactly as they were: umac_mouse never writes via_quadbits, so the
quadrature pair does not change as a function of the reported motion. -/
theorem c3_counterexample :
    (umac_mouse 3 2 1 mouseInit).quadbits = mouseInit.quadbits ∧
      via_rb_in (umac_mouse 3 2 1 mouseInit) &&& 0x30
        = via_rb_in mouseInit &&& 0x30 := by
  constructor
  · rfl
  · rfl

/-- The reads of RAM_RD16 are bytes, so the word is below 2 ^ 16. -/
theorem RAM_RD16_lt (ram : Image) (a : Nat) : RAM_RD16 ram a < 65536 := by
  unfold RAM_RD16 RAM_RD8
  omega

theorem loWord_coe (n : Nat) (h : n < 65536) : loWord (n : Int) = n := by
  unfold loWord
  omega

theorem umac_mouse_eq_none (s : MouseState) (dx dy : Int) (b : Nat)
    (hx : dx = 0) (hy : dy = 0) :
    umac_mouse dx dy b s
      = { ram := s.ram, quadbits := s.quadbits, mousePressed := b % 256 } := by
  simp only [umac_mouse]
  rw [if_neg (not_not_intro hx), if_neg (not_not_intro hy), if_neg (by simp [hx, hy])]

theorem umac_mouse_eq_dy (s : MouseState) (dx dy : Int) (b : Nat)
    (hx : dx = 0) (hy : dy ≠ 0) :
    umac_mouse dx dy b s
      = { ram := RAM_WR8
            (RAM_WR16 s.ram MTemp_v (loWord ((RAM_RD16 s.ram MTemp_v : Int) - dy)))
            CrsrNew
            (RAM_RD8
              (RAM_WR16 s.ram MTemp_v (loWord ((RAM_RD16 s.ram MTemp_v : Int) - dy)))
              CrsrCouple),
          quadbits := s.quadbits, mousePressed := b % 256 } := by
  simp only [umac_mouse]
  rw [if_neg (not_not_intro hx), if_pos hy, if_pos (Or.inr hy)]

theorem umac_mouse_eq_dx (s : MouseState) (dx dy : Int) (b : Nat)
    (hx : dx ≠ 0) (hy : dy = 0) :
    umac_mouse dx dy b s
      = { ram := RAM_WR8
            (RAM_WR16 s.ram MTemp_h (loWord ((RAM_RD16 s.ram MTemp_h : Int) + dx)))
            CrsrNew
            (RAM_RD8
              (RAM_WR16 s.ram MTemp_h (loWord ((RAM_RD16 s.ram MTemp_h : Int) + dx)))
              CrsrCouple),
          quadbits := s.quadbits, mousePressed := b % 256 } := by
  simp only [umac_mouse]
  rw [if_pos hx, if_neg (not_not_intro hy), if_pos (Or.inl hx)]

theorem umac_mouse_eq_both (s : MouseState) (dx dy : Int) (b : Nat)
    (hx : dx ≠ 0) (hy : dy ≠ 0) :
    umac_mouse dx dy b s
      = { ram :=
            RAM_WR8
              (RAM_WR16
                (RAM_WR16 s.ram MTemp_h (loWord ((RAM_RD16 s.ram MTemp_h : Int) + dx)))
                MTemp_v
                (loWord ((RAM_RD16
                    (RAM_WR16 s.ram MTemp_h
                      (loWord ((RAM_RD16 s.ram MTemp_h : Int) + dx)))
                    MTemp_v : Int) - dy)))
              CrsrNew
              (RAM_RD8
                (RAM_WR16
                  (RAM_WR16 s.ram MTemp_h (loWord ((RAM_RD16 s.ram MTemp_h : Int) + dx)))
                  MTemp_v
                  (loWord ((RAM_RD16
                      (RAM_WR16 s.ram MTemp_h
                        (loWord ((RAM_RD16 s.ram MTemp_h : Int) + dx)))
                      MTemp_v : Int) - dy)))
                CrsrCouple),
          quadbits := s.quadbits,
          mousePressed := b % 256 } := by
  simp only [umac_mouse]
  rw [if_pos hx, if_pos hy, if_pos (Or.inl hx)]

theorem via_rb_in_mouse_bit3 (s : MouseState) (dx dy : Int) (b : Nat)
    (hq : s.quadbits = 0) :
    via_rb_in (umac_mouse dx dy b s) &&& (1 <<< 3) = 0 ↔ b % 256 ≠ 0 := by
  have hqb : (umac_mouse dx dy b s).quadbits = s.quadbits := rfl
  have hmp : (umac_mouse dx dy b s).mousePressed = b % 256 := rfl
  unfold via_rb_in
  rw [hqb, hq, hmp]
  by_cases hb : b % 256 = 0
  · rw [if_pos hb]
    simp [hb]
  · rw [if_neg hb]
    simp [hb]

/-- C3 (amended): umac_mouse applies the reported motion directly to the
low-memory mouse variables instead of the quadrature generator.  For
every motion report, including axis-aligned and motionless ones: the
big-endian word at MTemp_h becomes its old value plus deltax and the one
at MTemp_v its old value minus deltay (both through int16_t truncation,
so a zero delta leaves the word as it was); when there is motion on
either axis the cursor is re-coupled by copying CrsrCouple to CrsrNew,
and a call with no motion leaves RAM untouched; the button is latched
mod 256 (a uint8_t); the quadrature latch read back through port B bits
5:4 is left unchanged; and port B bit 3 reads 0 exactly when the latched
button value is nonzero (via_quadbits is 0 in every reachable state, it
is never written). -/
theorem c3_mouse_amended (s : MouseState) (dx dy : Int) (b : Nat)
    (hq : s.quadbits = 0) :
    (umac_mouse dx dy b s).quadbits = s.quadbits ∧
      RAM_RD16 (umac_mouse dx dy b s).ram MTemp_h
        = loWord ((RAM_RD16 s.ram MTemp_h : Int) + dx) ∧
      RAM_RD16 (umac_mouse dx dy b s).ram MTemp_v
        = loWord ((RAM_RD16 s.ram MTemp_v : Int) - dy) ∧
      (dx ≠ 0 ∨ dy ≠ 0 →
        RAM_RD8 (umac_mouse dx dy b s).ram CrsrNew = RAM_RD8 s.ram CrsrCouple) ∧
      (dx = 0 → dy = 0 → (umac_mouse dx dy b s).ram = s.ram) ∧
      (umac_mouse dx dy b s).mousePressed = b % 256 ∧
      (via_rb_in (umac_mouse dx dy b s) &&& (1 <<< 3) = 0 ↔ b % 256 ≠ 0) := by
  have hvne : CLAMP_RAM_ADDR MTemp_v ≠ CLAMP_RAM_ADDR (MTemp_v + 1) := by decide
  have hhne : CLAMP_RAM_ADDR MTemp_h ≠ CLAMP_RAM_ADDR (MTemp_h + 1) := by decide
  by_cases hx : dx = 0 <;> by_cases hy : dy = 0
  · have hm := umac_mouse_eq_none s dx dy b hx hy
    refine ⟨rfl, ?_, ?_, ?_, fun _ _ => by rw [hm], rfl,
      via_rb_in_mouse_bit3 s dx dy b hq⟩
    · rw [hm]
      show RAM_RD16 s.ram MTemp_h = loWord ((RAM_RD16 s.ram MTemp_h : Int) + dx)
      rw [hx, add_zero, loWord_coe _ (RAM_RD16_lt s.ram MTemp_h)]
    · rw [hm]
      show RAM_RD16 s.ram MTemp_v = loWord ((RAM_RD16 s.ram MTemp_v : Int) - dy)
      rw [hy, sub_zero, loWord_coe _ (RAM_RD16_lt s.ram MTemp_v)]
    · intro hor
      rcases hor with h | h
      · exact absurd hx h
      · exact absurd hy h
  · have hm := umac_mouse_eq_dy s dx dy b hx hy
    refine ⟨rfl, ?_, ?_, fun _ => ?_, fun _ h0 => absurd h0 hy, rfl,
      via_rb_in_mouse_bit3 s dx dy b hq⟩
    · rw [hm]
      rw [RAM_RD16_WR8_ne _ MTemp_h CrsrNew _ (by decide) (by decide),
        RAM_RD16_WR16_ne _ MTemp_v MTemp_h _ (by decide) (by decide) (by decide)
          (by decide),
        hx, add_zero, loWord_coe _ (RAM_RD16_lt s.ram MTemp_h)]
    · rw [hm]
      rw [RAM_RD16_WR8_ne _ MTemp_v CrsrNew _ (by decide) (by decide),
        RAM_RD16_WR16_same _ MTemp_v _ (loWord_lt _) hvne]
    · rw [hm]
      rw [RAM_RD8_WR8_eq _ CrsrNew CrsrNew _ rfl,
        RAM_RD8_WR16_ne _ MTemp_v CrsrCouple _ (by decide) (by decide)]
      unfold RAM_RD8
      exact Nat.mod_mod_of_dvd _ dvd_rfl
  · have hm := umac_mouse_eq_dx s dx dy b hx hy
    refine ⟨rfl, ?_, ?_, fun _ => ?_, fun h0 _ => absurd h0 hx, rfl,
      via_rb_in_mouse_bit3 s dx dy b hq⟩
    · rw [hm]
      rw [RAM_RD16_WR8_ne _ MTemp_h CrsrNew _ (by decide) (by decide),
        RAM_RD16_WR16_same _ MTemp_h _ (loWord_lt _) hhne]
    · rw [hm]
      rw [RAM_RD16_WR8_ne _ MTemp_v CrsrNew _ (by decide) (by decide),
        RAM_RD16_WR16_ne _ MTemp_h MTemp_v _ (by decide) (by decide) (by decide)
          (by decide),
        hy, sub_zero, loWord_coe _ (RAM_RD16_lt s.ram MTemp_v)]
    · rw [hm]
      rw [RAM_RD8_WR8_eq _ CrsrNew CrsrNew _ rfl,
        RAM_RD8_WR16_ne _ MTemp_h CrsrCouple _ (by decide) (by decide)]
      unfold RAM_RD8
      exact Nat.mod_mod_of_dvd _ dvd_rfl
  · have hm := umac_mouse_eq_both s dx dy b hx hy
    have hv16 : RAM_RD16
        (RAM_WR16 s.ram MTemp_h (loWord ((RAM_RD16 s.ram MTemp_h : Int) + dx)))
        MTemp_v = RAM_RD16 s.ram MTemp_v :=
      RAM_RD16_WR16_ne _ MTemp_h MTemp_v _ (by decide) (by decide) (by decide)
        (by decide)
    refine ⟨rfl, ?_, ?_, fun _ => ?_, fun h0 _ => absurd h0 hx, rfl,
      via_rb_in_mouse_bit3 s dx dy b hq⟩
    · rw [hm]
      rw [RAM_RD16_WR8_ne _ MTemp_h CrsrNew _ (by decide) (by decide),
        RAM_RD16_WR16_ne _ MTemp_v MTemp_h _ (by decide) (by decide) (by decide)
          (by decide),
        RAM_RD16_WR16_same _ MTemp_h _ (loWord_lt _) hhne]
    · rw [hm]
      rw [RAM_RD16_WR8_ne _ MTemp_v CrsrNew _ (by decide) (by decide),
        RAM_RD16_WR16_same _ MTemp_v _ (loWord_lt _) hvne, hv16]
    · rw [hm]
      rw [RAM_RD8_WR8_eq _ CrsrNew CrsrNew _ rfl,
        RAM_RD8_WR16_ne _ MTemp_v CrsrCouple _ (by decide) (by decide),
        RAM_RD8_WR16_ne _ MTemp_h CrsrCouple _ (by decide) (by decide)]
      unfold RAM_RD8
      exact Nat.mod_mod_of_dvd _ dvd_rfl

/-- Witness for C3 (amended) at a concrete two-axis motion report, plus
the no-motion case leaving RAM untouched. -/
theorem c3_witness :
    (umac_mouse 3 2 1 mouseInit).quadbits = mouseInit.quadbits ∧
      RAM_RD16 (umac_mouse 3 2 1 mouseInit).ram MTemp_h
        = loWord ((RAM_RD16 mouseInit.ram MTemp_h : Int) + 3) ∧
      RAM_RD16 (umac_mouse 3 2 1 mouseInit).ram MTemp_v
        = loWord ((RAM_RD16 mouseInit.ram MTemp_v : Int) - 2) ∧
      RAM_RD8 (umac_mouse 3 2 1 mouseInit).ram CrsrNew
        = RAM_RD8 mouseInit.ram CrsrCouple ∧
      (umac_mouse 3 2 1 mouseInit).mousePressed = 1 % 256 ∧
      (via_rb_in (umac_mouse 3 2 1 mouseInit) &&& (1 <<< 3) = 0 ↔ 1 % 256 ≠ 0) ∧
      (umac_mouse 0 0 1 mouseInit).ram = mouseInit.ram := by
  have h := c3_mouse_amended mouseInit 3 2 1 rfl
  have h0 := c3_mouse_amended mouseInit 0 0 1 rfl
  exact ⟨h.1, h.2.1, h.2.2.1, h.2.2.2.1 (by decide), h.2.2.2.2.2.1,
    h.2.2.2.2.2.2, h0.2.2.2.2.1 rfl rfl⟩

/-! Keyboard service: command handling and the one-quantum delay. -/

/-- C5: kbd_rx answers GET_MODEL (0x16) with (5 << 1) | 1 = 0x0B through
the VIA shift-register receive path; it answers INQUIRY (0x10) with the
buffered scancode, emptying the one-event buffer, or with 0x7B when the
buffer is empty; any other command produces no response and changes
nothing. -/
theorem c5_kbd_commands (s : KbdState) (d : Nat) :
    kbd_rx KBD_CMD_GET_MODEL s = { s with rx := s.rx ++ [0x0b] } ∧
      (s.pendingEvt = -1 →
        kbd_rx KBD_CMD_INQUIRY s = { s with rx := s.rx ++ [KBD_RSP_NULL] }) ∧
      (0 ≤ s.pendingEvt → s.pendingEvt < 256 →
        kbd_rx KBD_CMD_INQUIRY s
          = { s with rx := s.rx ++ [s.pendingEvt.toNat], pendingEvt := -1 }) ∧
      (d ≠ KBD_CMD_GET_MODEL → d ≠ KBD_CMD_INQUIRY → kbd_rx d s = s) := by
  refine ⟨rfl, fun he => ?_, fun h0 h256 => ?_, fun h1 h2 => ?_⟩
  · unfold kbd_rx
    rw [if_neg (by decide : ¬(KBD_CMD_INQUIRY = KBD_CMD_GET_MODEL)),
      if_pos rfl, if_pos he]
  · unfold kbd_rx
    rw [if_neg (by decide : ¬(KBD_CMD_INQUIRY = KBD_CMD_GET_MODEL)),
      if_pos rfl, if_neg (by omega : ¬(s.pendingEvt = -1))]
    have hmod : s.pendingEvt % 256 = s.pendingEvt := by omega
    rw [hmod]
  · unfold kbd_rx
    rw [if_neg h1, if_neg h2]

/-- Witness for C5: all four command cases at concrete states. -/
theorem c5_witness :
    kbd_rx KBD_CMD_GET_MODEL kbdInit = { kbdInit with rx := kbdInit.rx ++ [0x0b] } ∧
      kbd_rx KBD_CMD_INQUIRY kbdInit
        = { kbdInit with rx := kbdInit.rx ++ [KBD_RSP_NULL] } ∧
      kbd_rx KBD_CMD_INQUIRY kbdEvt
        = { kbdEvt with rx := kbdEvt.rx ++ [(0x41 : Int).toNat], pendingEvt := -1 } ∧
      kbd_rx 0x33 kbdInit = kbdInit :=
  ⟨(c5_kbd_commands kbdInit 0x33).1,
    (c5_kbd_commands kbdInit 0x33).2.1 rfl,
    (c5_kbd_commands kbdEvt 0x33).2.2.1 (by decide) (by decide),
    (c5_kbd_commands kbdInit 0x33).2.2.2 (by decide) (by decide)⟩

/-- C6: kbd_check_work never processes a pending keyboard command while
the elapsed virtual time since its transmit is at most one
execution-loop quantum; as soon as the elapsed time exceeds the quantum,
the next check processes the command through kbd_rx and clears the
pending slot; via_sr_tx records the transmitted byte with the current
virtual time as its timestamp. -/
theorem c6_kbd_delay (s : KbdState) (d : Nat) :
    (s.time - s.lastCmdTime ≤ UMAC_EXECLOOP_QUANTUM → kbd_check_work s = s) ∧
      (s.lastCmd ≠ 0 → UMAC_EXECLOOP_QUANTUM < s.time - s.lastCmdTime →
        kbd_check_work s = { kbd_rx s.lastCmd s with lastCmd := 0 } ∧
          (kbd_check_work s).lastCmd = 0) ∧
      (via_sr_tx d s).lastCmd = d % 256 ∧ (via_sr_tx d s).lastCmdTime = s.time := by
  refine ⟨fun hle => ?_, fun hc ht => ?_, rfl, rfl⟩
  · unfold kbd_check_work
    rw [if_neg (fun hand => absurd hand.2 (Nat.not_lt.mpr hle))]
  · have hw : kbd_check_work s = { kbd_rx s.lastCmd s with lastCmd := 0 } := by
      unfold kbd_check_work
      rw [if_pos ⟨hc, ht⟩]
    exact ⟨hw, by rw [hw]⟩

/-- Witness for C6 at two concrete keyboard states, one inside the
delay window and one past it. -/
theorem c6_witness :
    kbd_check_work kbdIdle = kbdIdle ∧
      kbd_check_work kbdBusy = { kbd_rx kbdBusy.lastCmd kbdBusy with lastCmd := 0 } ∧
      (kbd_check_work kbdBusy).lastCmd = 0 ∧
      (via_sr_tx 0x16 kbdInit).lastCmd = 0x16 % 256 ∧
      (via_sr_tx 0x16 kbdInit).lastCmdTime = kbdInit.time :=
  ⟨(c6_kbd_delay kbdIdle 0x16).1 (by decide),
    ((c6_kbd_delay kbdBusy 0x16).2.1 (by decide) (by decide)).1,
    ((c6_kbd_delay kbdBusy 0x16).2.1 (by decide) (by decide)).2,
    (c6_kbd_delay kbdInit 0x16).2.2.1,
    (c6_kbd_delay kbdInit 0x16).2.2.2⟩

/-! The PV_SONY_ADDR doorbell and the latched done flag. -/

/-- C4: a CPU byte write to the PV_SONY_ADDR pseudo-address (a word in
dummy space that the dummy-region predicate excludes, so the write
reaches the doorbell in either overlay mode) is classified as the disc
hook call carrying the written byte as command tag; when the hook
returns nonzero, exit_error runs, the done flag is set, and umac_loop
returns 1. -/
theorem c4_pv_sony_hook (ov : Bool) (pv v : Nat) (hook : Nat → Int) (s : MainState)
    (hpv : 0xf00000 ≤ pv ∧ pv ≤ 0xffffff)
    (hgd : s.guard = true → s.done = true) :
    cpu_write_byte ov pv pv v = WriteEffect.sonyHook v ∧
      (hook v ≠ 0 →
        (cpu_write_byte_run ov pv pv v hook s).done = true ∧
          umac_loop_ret (cpu_write_byte_run ov pv pv v hook s) = 1) := by
  obtain ⟨hlo, hhi⟩ := hpv
  have h1 : ¬(IS_RAM ov pv = true) := by
    unfold IS_RAM
    cases ov
    · simp only [Bool.false_eq_true, if_false, decide_eq_true_eq]
      omega
    · simp only [if_true, decide_eq_true_eq]
      omega
  have h2 : ¬(IS_VIA pv = true) := by
    unfold IS_VIA
    simp only [decide_eq_true_eq]
    omega
  have h3 : ¬(IS_IWM pv = true) := by
    unfold IS_IWM
    simp only [decide_eq_true_eq]
    omega
  have h4 : ¬(IS_SCC_WR pv = true) := by
    unfold IS_SCC_WR
    simp only [decide_eq_true_eq]
    omega
  have h5 : ¬(IS_DUMMY pv pv = true) := by
    unfold IS_DUMMY
    simp only [decide_eq_true_eq]
    intro hd
    exact hd.2.2 rfl
  have heff : cpu_write_byte ov pv pv v = WriteEffect.sonyHook v := by
    unfold cpu_write_byte
    rw [if_neg h1, if_neg h2, if_neg h3, if_neg h4, if_neg h5, if_pos rfl]
  refine ⟨heff, fun hr => ?_⟩
  have hst : cpu_write_byte_run ov pv pv v hook s = exit_error s := by
    unfold cpu_write_byte_run
    rw [heff]
    show (if hook v ≠ 0 then exit_error s else s) = exit_error s
    rw [if_pos hr]
  rw [hst]
  unfold exit_error umac_loop_ret
  by_cases hgv : s.guard = true
  · rw [if_pos hgv]
    exact ⟨hgd hgv, by rw [if_pos (hgd hgv)]⟩
  · rw [if_neg hgv]
    exact ⟨rfl, rfl⟩

/-- Witness for C4 at a concrete doorbell address and failing hook. -/
theorem c4_witness :
    cpu_write_byte false 0xf80000 0xf80000 7 = WriteEffect.sonyHook 7 ∧
      (cpu_write_byte_run false 0xf80000 0xf80000 7 (fun _ => 1) mainInit).done = true ∧
      umac_loop_ret (cpu_write_byte_run false 0xf80000 0xf80000 7 (fun _ => 1) mainInit)
        = 1 := by
  have h := c4_pv_sony_hook false 0xf80000 7 (fun _ => 1) mainInit (by decide) (by decide)
  exact ⟨h.1, (h.2 (by decide)).1, (h.2 (by decide)).2⟩

theorem runMain_done (evs : List MainEvent) :
    ∀ s : MainState, s.done = true → (runMain evs s).done = true := by
  induction evs with
  | nil => exact fun s h => h
  | cons e t ih =>
    intro s h
    refine ih (mainStep e s) ?_
    cases e with
    | exitErr =>
      show (exit_error s).done = true
      unfold exit_error
      split
      · exact h
      · rfl
    | reset => exact h
    | loop => exact h

/-- C10: once a fatal error has set the done flag it stays set through
any further sequence of exit_error, umac_reset and umac_loop calls (no
function in main.c ever clears sim_done), every later umac_loop returns
1, and umac_reset in particular leaves the done flag untouched. -/
theorem c10_done_latches (s : MainState) (evs : List MainEvent)
    (h : s.done = true) :
    (runMain evs s).done = true ∧ umac_loop_ret (runMain evs s) = 1 ∧
      (umac_reset s).done = s.done := by
  have hd := runMain_done evs s h
  refine ⟨hd, ?_, rfl⟩
  unfold umac_loop_ret
  rw [if_pos hd]

/-- Witness for C10 on a concrete post-fault state and event sequence. -/
theorem c10_witness :
    (runMain [MainEvent.reset, MainEvent.loop, MainEvent.exitErr, MainEvent.loop]
        mainFault).done = true ∧
      umac_loop_ret (runMain [MainEvent.reset, MainEvent.loop, MainEvent.exitErr,
        MainEvent.loop] mainFault) = 1 ∧
      (umac_reset mainFault).done = mainFault.done :=
  c10_done_latches mainFault
    [MainEvent.reset, MainEvent.loop, MainEvent.exitErr, MainEvent.loop] (by decide)

end Umac
